import Mathlib

/-!
Verification of the tree-sitter-spip external scanner (src/scanner.c, current
three-token version) and of the nested parameter-body rules of grammar.js.

The scanner is embedded shallowly: the tree-sitter lexer is a record holding
the input, the lookahead position `pos`, and the committed token end `marked`
(the position set by mark_end).  `advance` moves the lookahead one character;
`markEnd` sets the token end to the current lookahead position.  A scan call
either accepts (ok = true, with a result symbol and the final lexer state, the
committed token being the characters between the entry position and the final
`marked`) or declines (ok = false, no token is produced).
-/

namespace Spip

/-- Tree-sitter lexer state: input stream, lookahead position, marked token end. -/
structure Lexer where
  input : List Char
  pos : Nat
  marked : Nat
  deriving Repr, DecidableEq

/-- Current lookahead character (none at end of stream, where C sees 0). -/
def Lexer.lookahead (l : Lexer) : Option Char := l.input.get? l.pos

/-- The lexer eof test. -/
def Lexer.eof (l : Lexer) : Bool := l.input.length ≤ l.pos

/-- Advance the lookahead one character (tree-sitter advance). -/
def Lexer.advance (l : Lexer) : Lexer := { l with pos := l.pos + 1 }

/-- Mark the end of the token at the current lookahead position (mark_end). -/
def Lexer.markEnd (l : Lexer) : Lexer := { l with marked := l.pos }

/-- is_ws from scanner.c: space, tab, newline, carriage return. -/
def is_ws (c : Char) : Bool := c = ' ' || c = '\t' || c = '\n' || c = '\r'

/-- Whether the character at position i of the input is whitespace (false past the end,
matching the C comparison against the 0 lookahead at eof). -/
def charIsWs (input : List Char) (i : Nat) : Bool :=
  match input.get? i with
  | some c => is_ws c
  | none => false

/-- Whether the current lookahead is whitespace. -/
def lookIsWs (l : Lexer) : Bool := charIsWs l.input l.pos

/-- The external token types of scanner.c, in enum order. -/
inductive TokenType where
  | CONTENT_CHAR
  | SPIP_WS
  | SHORTHAND_LBRACE
  deriving Repr, DecidableEq

/-- The valid_symbols vector handed to the scanner by the parser: one flag per
external token, in enum order. -/
structure Caps where
  content : Bool
  ws : Bool
  shorthand : Bool
  deriving Repr, DecidableEq

/-- Result of one scan call: ok flag, result symbol (when accepting), and the
final lexer state. -/
structure ScanResult where
  ok : Bool
  sym : Option TokenType
  lexer : Lexer
  deriving Repr, DecidableEq

/-- at_spip_start from scanner.c (current version): decides whether the current
position starts a SPIP construct, peeking ahead with advance and marking the
token end at the entry position first.  Returns the decision together with the
mutated lexer. -/
def at_spip_start (l : Lexer) : Bool × Lexer :=
  match l.lookahead with
  | some '(' =>
    let l := l.markEnd.advance
    if l.lookahead = some '#' then (true, l) else (false, l)
  | some '#' =>
    let l := l.markEnd.advance
    match l.lookahead with
    | some c2 =>
      if ('A' ≤ c2 && c2 ≤ 'Z') then (true, l)
      else if c2 = '_' then (true, l)
      else (false, l)
    | none => (false, l)
  | some '<' =>
    let l := l.markEnd.advance
    if l.lookahead = some 'B' then (true, l)
    else if l.lookahead = some 'I' then
      let l := l.advance
      if l.lookahead = some 'N' then (true, l) else (false, l)
    else if l.lookahead = some 'm' then
      let l := l.advance
      if l.lookahead = some 'u' then (true, l) else (false, l)
    else if l.lookahead = some ':' then (true, l)
    else if l.lookahead = some '/' then
      let l := l.advance
      if l.lookahead = some 'B' then (true, l)
      else if l.lookahead = some 'm' then
        let l := l.advance
        if l.lookahead = some 'u' then (true, l) else (false, l)
      else if l.lookahead = some '/' then
        let l := l.advance
        if l.lookahead = some 'B' then (true, l) else (false, l)
      else (false, l)
    else (false, l)
  | some '[' => (true, l)
  | some ']' => (true, l)
  | _ => (false, l)

/-- The whitespace-consuming loop of the SPIP_WS branch:
while (is_ws(lookahead) and not eof) advance. -/
def wsLoop (l : Lexer) : Lexer :=
  if h : (lookIsWs l && !l.eof) = true then wsLoop l.advance else l
termination_by l.input.length - l.pos
decreasing_by
  simp only [Bool.and_eq_true, Bool.not_eq_true] at h
  have : l.pos < l.input.length := by
    have := h.2
    simp [Lexer.eof] at this
    omega
  simp [Lexer.advance]
  omega

/-- Whether an optional character is an uppercase letter or underscore, as in
the abbreviated-tag row of the spec table. -/
def upperOrUnderscore (o : Option Char) : Bool :=
  match o with
  | some c => ('A' ≤ c && c ≤ 'Z') || c = '_'
  | none => false

/-- Whether an optional character is O or underscore, as in the loop-open and
loop-close rows of the spec table. -/
def oOrUnderscore (o : Option Char) : Bool :=
  match o with
  | some c => c = 'O' || c = '_'
  | none => false

/-- Construct-Opener Table of spec section 4.1, written from the words of the
spec for comparison against at_spip_start: each disjunct is one enumerated
opener-prefix row, read at the given position. -/
def spec_opener (input : List Char) (pos : Nat) : Bool :=
  (input[pos]? = some '(' && input[pos + 1]? = some '#') ||
  (input[pos]? = some '#' && upperOrUnderscore input[pos + 1]?) ||
  (input[pos]? = some '<' && input[pos + 1]? = some 'B'
    && oOrUnderscore input[pos + 1 + 1]?) ||
  (input[pos]? = some '<' && input[pos + 1]? = some 'I'
    && input[pos + 1 + 1]? = some 'N') ||
  (input[pos]? = some '<' && input[pos + 1]? = some 'm'
    && input[pos + 1 + 1]? = some 'u') ||
  (input[pos]? = some '<' && input[pos + 1]? = some ':') ||
  (input[pos]? = some '<' && input[pos + 1]? = some '/'
    && input[pos + 1 + 1]? = some 'B' && oOrUnderscore input[pos + 1 + 1 + 1]?) ||
  (input[pos]? = some '<' && input[pos + 1]? = some '/'
    && input[pos + 1 + 1]? = some 'm' && input[pos + 1 + 1 + 1]? = some 'u') ||
  (input[pos]? = some '<' && input[pos + 1]? = some '/'
    && input[pos + 1 + 1]? = some '/' && input[pos + 1 + 1 + 1]? = some 'B') ||
  (input[pos]? = some '[') ||
  (input[pos]? = some ']')

/-- The follow-set switch of the SPIP_WS branch in scanner.c: the run is
committed only when the next character is one of the six listed ones. -/
def followSet (c : Option Char) : Bool :=
  match c with
  | some '{' => true
  | some '|' => true
  | some ')' => true
  | some '*' => true
  | some '>' => true
  | some '/' => true
  | _ => false

/-- tree_sitter_spip_external_scanner_scan from scanner.c (current version). -/
def scan (valid : Caps) (l : Lexer) : ScanResult :=
  if l.eof = true then ⟨false, none, l⟩
  else if valid.shorthand = true ∧ l.lookahead = some '{' then
    ⟨true, some TokenType.SHORTHAND_LBRACE, l.markEnd.advance.markEnd⟩
  else if valid.ws = true ∧ lookIsWs l = true then
    let l1 := wsLoop l.markEnd
    if followSet l1.lookahead = true then
      ⟨true, some TokenType.SPIP_WS, l1.markEnd⟩
    else
      ⟨false, none, l1⟩
  else if valid.content = false then ⟨false, none, l⟩
  else
    let p := at_spip_start l
    if p.1 = true then ⟨false, none, p.2⟩
    else ⟨true, some TokenType.CONTENT_CHAR, p.2.markEnd.advance.markEnd⟩

/-!
Grammar-level embedding of the nested parameter/criteria body rules of
grammar.js.  A token regex /[^{}]+/ denotes a nonempty run of non-brace
characters; repeat1 of a choice denotes a nonempty concatenation of chunks.
-/

/-- The token regex for a nonempty run of non-delimiter characters. -/
def brace_free (l : List Char) : Bool :=
  !l.isEmpty && l.all (fun c => !(c = '{' || c = '}'))

/-- repeat1 of a chunk language: a nonempty concatenation of chunks. -/
inductive Chunks (C : List Char → Prop) : List Char → Prop where
  | single {l : List Char} : C l → Chunks C l
  | cons {l₁ l₂ : List Char} : C l₁ → Chunks C l₂ → Chunks C (l₁ ++ l₂)

/-- _deep_brace_content from grammar.js: a single nonempty non-brace run. -/
def deep_brace_content (l : List Char) : Prop := brace_free l = true

/-- One choice alternative of _nested_brace_content: a non-brace run, or a
brace pair around optional _deep_brace_content. -/
inductive NestedChunk : List Char → Prop where
  | run {l : List Char} : brace_free l = true → NestedChunk l
  | group {inner : List Char} : (inner = [] ∨ deep_brace_content inner) →
      NestedChunk ('{' :: inner ++ ['}'])

/-- _nested_brace_content from grammar.js. -/
def nested_brace_content : List Char → Prop := Chunks NestedChunk

/-- One choice alternative of param_content / criteria_value: a non-brace run,
or a brace pair around optional _nested_brace_content. -/
inductive ParamChunk : List Char → Prop where
  | run {l : List Char} : brace_free l = true → ParamChunk l
  | group {inner : List Char} : (inner = [] ∨ nested_brace_content inner) →
      ParamChunk ('{' :: inner ++ ['}'])

/-- param_content from grammar.js: body of balise_params and filter_params. -/
def param_content : List Char → Prop := Chunks ParamChunk

/-- criteria_value from grammar.js; its body is identical to param_content. -/
def criteria_value : List Char → Prop := Chunks ParamChunk

/-- criteria from grammar.js: an outermost brace pair around criteria_value. -/
def criteria (l : List Char) : Prop :=
  ∃ v, criteria_value v ∧ l = '{' :: v ++ ['}']

/-- Depth checker: walk the list keeping the current brace nesting depth;
fail when depth would exceed the bound or a close brace has no opener.
Returns the final depth on success. -/
def depthRun (bound : Nat) : List Char → Nat → Option Nat
  | [], d => some d
  | c :: rest, d =>
    if c = '{' then
      if d + 1 ≤ bound then depthRun bound rest (d + 1) else none
    else if c = '}' then
      match d with
      | 0 => none
      | d' + 1 => depthRun bound rest d'
    else depthRun bound rest d

/-- Scenario D parameter body (the characters of hash E N V, an inner brace
pair around nombre comma hash C O N S T, and a deeper brace pair around
underscore M A X): three nesting levels once enclosed in its own braces. -/
def scenarioDBody : List Char :=
  ['#', 'E', 'N', 'V', '{', 'n', 'o', 'm', 'b', 'r', 'e', ',',
   '#', 'C', 'O', 'N', 'S', 'T', '{', '_', 'M', 'A', 'X', '}', '}']

/-- Scenario D criteria input: the body enclosed in its own brace pair. -/
def scenarioDCriteria : List Char := '{' :: scenarioDBody ++ ['}']

/-- A body with a fourth-level brace pair inside a third-level body. -/
def fourLevelBody : List Char :=
  ['a', '{', 'b', '{', 'c', '{', 'd', '}', '}', '}']

/-- The four-level body enclosed in its own brace pair. -/
def fourLevelCriteria : List Char := '{' :: fourLevelBody ++ ['}']

@[simp] theorem Lexer.advance_input (l : Lexer) : l.advance.input = l.input := rfl
@[simp] theorem Lexer.advance_pos (l : Lexer) : l.advance.pos = l.pos + 1 := rfl
@[simp] theorem Lexer.advance_marked (l : Lexer) : l.advance.marked = l.marked := rfl
@[simp] theorem Lexer.markEnd_input (l : Lexer) : l.markEnd.input = l.input := rfl
@[simp] theorem Lexer.markEnd_pos (l : Lexer) : l.markEnd.pos = l.pos := rfl
@[simp] theorem Lexer.markEnd_marked (l : Lexer) : l.markEnd.marked = l.pos := rfl
@[simp] theorem Lexer.lookahead_advance (l : Lexer) :
    l.advance.lookahead = l.input.get? (l.pos + 1) := rfl
@[simp] theorem Lexer.lookahead_markEnd (l : Lexer) :
    l.markEnd.lookahead = l.lookahead := rfl

theorem wsLoop_step (l : Lexer) (h : (lookIsWs l && !l.eof) = true) :
    wsLoop l = wsLoop l.advance := by
  rw [wsLoop]; simp [h]

theorem wsLoop_done (l : Lexer) (h : ¬ (lookIsWs l && !l.eof) = true) :
    wsLoop l = l := by
  rw [wsLoop, dif_neg h]

theorem lookIsWs_of_eof (l : Lexer) (h : l.eof = true) : lookIsWs l = false := by
  simp [Lexer.eof] at h
  simp only [lookIsWs, charIsWs, List.get?_eq_none.2 h]

theorem eof_false_of_lookahead (l : Lexer) (c : Char) (h : l.lookahead = some c) :
    l.eof = false := by
  have h2 := List.get?_eq_some.1 h
  obtain ⟨hlt, -⟩ := h2
  simp [Lexer.eof]
  omega

@[simp] theorem wsLoop_input (l : Lexer) : (wsLoop l).input = l.input := by
  induction l using wsLoop.induct with
  | case1 l h ih => rw [wsLoop_step l h]; simpa using ih
  | case2 l h => rw [wsLoop_done l h]

@[simp] theorem wsLoop_marked (l : Lexer) : (wsLoop l).marked = l.marked := by
  induction l using wsLoop.induct with
  | case1 l h ih => rw [wsLoop_step l h]; simpa using ih
  | case2 l h => rw [wsLoop_done l h]

theorem wsLoop_pos_le (l : Lexer) : l.pos ≤ (wsLoop l).pos := by
  induction l using wsLoop.induct with
  | case1 l h ih =>
    rw [wsLoop_step l h]
    simp [Lexer.advance] at ih ⊢
    omega
  | case2 l h => rw [wsLoop_done l h]

theorem wsLoop_stop (l : Lexer) : lookIsWs (wsLoop l) = false := by
  induction l using wsLoop.induct with
  | case1 l h ih => rw [wsLoop_step l h]; exact ih
  | case2 l h =>
    rw [wsLoop_done l h]
    cases hb : lookIsWs l with
    | false => rfl
    | true =>
      cases he : l.eof with
      | true =>
        have hf2 := lookIsWs_of_eof l he
        simp [hb] at hf2
      | false => exact absurd (by rw [hb, he]; rfl) h

theorem wsLoop_all_ws (l : Lexer) :
    ∀ i, l.pos ≤ i → i < (wsLoop l).pos → charIsWs l.input i = true := by
  induction l using wsLoop.induct with
  | case1 l h ih =>
    intro i h1 h2
    rw [wsLoop_step l h] at h2
    rcases Nat.eq_or_lt_of_le h1 with rfl | h1'
    · rw [Bool.and_eq_true] at h
      exact h.1
    · have := ih i (by simpa [Lexer.advance] using h1') (by simpa using h2)
      simpa using this
  | case2 l h =>
    intro i h1 h2
    rw [wsLoop_done l h] at h2
    omega

@[simp] theorem at_spip_start_input (l : Lexer) : (at_spip_start l).2.input = l.input := by
  unfold at_spip_start
  dsimp only
  split <;> (repeat' split) <;> simp [Lexer.advance, Lexer.markEnd]

theorem at_spip_start_pos_le (l : Lexer) : l.pos ≤ (at_spip_start l).2.pos := by
  unfold at_spip_start
  dsimp only
  split <;> (repeat' split) <;> simp [Lexer.advance, Lexer.markEnd] <;> omega

theorem at_spip_start_marked (l : Lexer) (hm : l.marked = l.pos) :
    (at_spip_start l).2.marked = l.pos := by
  unfold at_spip_start
  dsimp only
  split <;> (repeat' split) <;> simp [Lexer.advance, Lexer.markEnd, hm]

theorem at_spip_start_lparen (l : Lexer)
    (h0 : l.input[l.pos]? = some '(') (h1 : l.input[l.pos + 1]? = some '#') :
    (at_spip_start l).1 = true := by
  unfold at_spip_start
  simp [Lexer.lookahead, h0, h1]

theorem at_spip_start_hash (l : Lexer) (c2 : Char)
    (h0 : l.input[l.pos]? = some '#') (h1 : l.input[l.pos + 1]? = some c2)
    (h2 : (('A' ≤ c2 && c2 ≤ 'Z') || c2 = '_') = true) :
    (at_spip_start l).1 = true := by
  unfold at_spip_start
  have h2a : ('A' ≤ c2 && c2 ≤ 'Z') = true ∨ (c2 = '_') = true := by simpa using h2
  rcases h2a with hu | hu
  · simp [Lexer.lookahead, h0, h1, hu]
  · have : c2 = '_' := by simpa using hu
    subst this
    simp [Lexer.lookahead, h0, h1]

theorem at_spip_start_lt_B (l : Lexer)
    (h0 : l.input[l.pos]? = some '<') (h1 : l.input[l.pos + 1]? = some 'B') :
    (at_spip_start l).1 = true := by
  unfold at_spip_start
  simp [Lexer.lookahead, h0, h1]

theorem at_spip_start_lt_IN (l : Lexer)
    (h0 : l.input[l.pos]? = some '<') (h1 : l.input[l.pos + 1]? = some 'I')
    (h2 : l.input[l.pos + 1 + 1]? = some 'N') :
    (at_spip_start l).1 = true := by
  unfold at_spip_start
  simp [Lexer.lookahead, h0, h1, h2]

theorem at_spip_start_lt_mu (l : Lexer)
    (h0 : l.input[l.pos]? = some '<') (h1 : l.input[l.pos + 1]? = some 'm')
    (h2 : l.input[l.pos + 1 + 1]? = some 'u') :
    (at_spip_start l).1 = true := by
  unfold at_spip_start
  simp [Lexer.lookahead, h0, h1, h2]

theorem at_spip_start_lt_colon (l : Lexer)
    (h0 : l.input[l.pos]? = some '<') (h1 : l.input[l.pos + 1]? = some ':') :
    (at_spip_start l).1 = true := by
  unfold at_spip_start
  simp [Lexer.lookahead, h0, h1]

theorem at_spip_start_slash_B (l : Lexer)
    (h0 : l.input[l.pos]? = some '<') (h1 : l.input[l.pos + 1]? = some '/')
    (h2 : l.input[l.pos + 1 + 1]? = some 'B') :
    (at_spip_start l).1 = true := by
  unfold at_spip_start
  simp [Lexer.lookahead, h0, h1, h2]

theorem at_spip_start_slash_mu (l : Lexer)
    (h0 : l.input[l.pos]? = some '<') (h1 : l.input[l.pos + 1]? = some '/')
    (h2 : l.input[l.pos + 1 + 1]? = some 'm')
    (h3 : l.input[l.pos + 1 + 1 + 1]? = some 'u') :
    (at_spip_start l).1 = true := by
  unfold at_spip_start
  simp [Lexer.lookahead, h0, h1, h2, h3]

theorem at_spip_start_slashslash_B (l : Lexer)
    (h0 : l.input[l.pos]? = some '<') (h1 : l.input[l.pos + 1]? = some '/')
    (h2 : l.input[l.pos + 1 + 1]? = some '/')
    (h3 : l.input[l.pos + 1 + 1 + 1]? = some 'B') :
    (at_spip_start l).1 = true := by
  unfold at_spip_start
  simp [Lexer.lookahead, h0, h1, h2, h3]

theorem at_spip_start_lbrack (l : Lexer) (h0 : l.input[l.pos]? = some '[') :
    (at_spip_start l).1 = true := by
  unfold at_spip_start
  simp [Lexer.lookahead, h0]

theorem at_spip_start_rbrack (l : Lexer) (h0 : l.input[l.pos]? = some ']') :
    (at_spip_start l).1 = true := by
  unfold at_spip_start
  simp [Lexer.lookahead, h0]

theorem upperOrUnderscore_exists (o : Option Char) (h : upperOrUnderscore o = true) :
    ∃ c, o = some c ∧ (('A' ≤ c && c ≤ 'Z') || c = '_') = true := by
  cases o with
  | none => simp [upperOrUnderscore] at h
  | some c => exact ⟨c, rfl, by simpa [upperOrUnderscore] using h⟩

/-- Every opener prefix enumerated in the spec table is also blocked by the
code: at_spip_start returns true there. -/
theorem at_spip_start_of_spec_opener (l : Lexer)
    (h : spec_opener l.input l.pos = true) : (at_spip_start l).1 = true := by
  unfold spec_opener at h
  simp only [Bool.or_eq_true, Bool.and_eq_true, decide_eq_true_eq, or_assoc,
    and_assoc] at h
  rcases h with ⟨h0, h1⟩ | ⟨h0, h1⟩ | ⟨h0, h1, h2⟩ | ⟨h0, h1, h2⟩ | ⟨h0, h1, h2⟩ |
    ⟨h0, h1⟩ | ⟨h0, h1, h2, h3⟩ | ⟨h0, h1, h2, h3⟩ | ⟨h0, h1, h2, h3⟩ | h0 | h0
  · exact at_spip_start_lparen l h0 h1
  · obtain ⟨c2, ho, hcond⟩ := upperOrUnderscore_exists _ h1
    exact at_spip_start_hash l c2 h0 ho hcond
  · exact at_spip_start_lt_B l h0 h1
  · exact at_spip_start_lt_IN l h0 h1 h2
  · exact at_spip_start_lt_mu l h0 h1 h2
  · exact at_spip_start_lt_colon l h0 h1
  · exact at_spip_start_slash_B l h0 h1 h2
  · exact at_spip_start_slash_mu l h0 h1 h2 h3
  · exact at_spip_start_slashslash_B l h0 h1 h2 h3
  · exact at_spip_start_lbrack l h0
  · exact at_spip_start_rbrack l h0

theorem scan_eof (valid : Caps) (l : Lexer) (h : l.eof = true) :
    scan valid l = ⟨false, none, l⟩ := by
  simp [scan, h]

theorem scan_shorthand_branch (valid : Caps) (l : Lexer) (he : l.eof = false)
    (hs : valid.shorthand = true) (hl : l.lookahead = some '{') :
    scan valid l = ⟨true, some TokenType.SHORTHAND_LBRACE,
      ⟨l.input, l.pos + 1, l.pos + 1⟩⟩ := by
  simp [scan, he, hs, hl, Lexer.markEnd, Lexer.advance]

theorem scan_ws_branch (valid : Caps) (l : Lexer) (he : l.eof = false)
    (hns : ¬ (valid.shorthand = true ∧ l.lookahead = some '{'))
    (hw : valid.ws = true) (hl : lookIsWs l = true) :
    scan valid l =
      if followSet (wsLoop l.markEnd).lookahead = true then
        ⟨true, some TokenType.SPIP_WS, (wsLoop l.markEnd).markEnd⟩
      else
        ⟨false, none, wsLoop l.markEnd⟩ := by
  unfold scan
  rw [if_neg (by simp [he]), if_neg hns, if_pos ⟨hw, hl⟩]

theorem scan_content_branch (valid : Caps) (l : Lexer) (he : l.eof = false)
    (hns : ¬ (valid.shorthand = true ∧ l.lookahead = some '{'))
    (hnw : ¬ (valid.ws = true ∧ lookIsWs l = true)) (hc : valid.content = true) :
    scan valid l =
      if (at_spip_start l).1 = true then
        ⟨false, none, (at_spip_start l).2⟩
      else
        ⟨true, some TokenType.CONTENT_CHAR,
          (at_spip_start l).2.markEnd.advance.markEnd⟩ := by
  unfold scan
  rw [if_neg (by simp [he]), if_neg hns, if_neg hnw, if_neg (by simp [hc])]

theorem scan_no_content (valid : Caps) (l : Lexer) (he : l.eof = false)
    (hns : ¬ (valid.shorthand = true ∧ l.lookahead = some '{'))
    (hnw : ¬ (valid.ws = true ∧ lookIsWs l = true)) (hc : valid.content = false) :
    scan valid l = ⟨false, none, l⟩ := by
  unfold scan
  rw [if_neg (by simp [he]), if_neg hns, if_neg hnw, if_pos hc]

theorem lookahead_eq (l : Lexer) : l.lookahead = l.input[l.pos]? := by
  rw [Lexer.lookahead, List.get?_eq_getElem?]

theorem lookIsWs_exists (l : Lexer) (h : lookIsWs l = true) :
    ∃ c, l.lookahead = some c ∧ is_ws c = true := by
  unfold lookIsWs charIsWs at h
  unfold Lexer.lookahead
  cases ho : l.input.get? l.pos with
  | none => rw [ho] at h; cases h
  | some c => rw [ho] at h; exact ⟨c, rfl, h⟩

/-- Every spec-table opener row starts with one of five characters. -/
theorem spec_opener_first (input : List Char) (pos : Nat)
    (h : spec_opener input pos = true) :
    ∃ c, input[pos]? = some c ∧
      (c = '(' ∨ c = '#' ∨ c = '<' ∨ c = '[' ∨ c = ']') := by
  unfold spec_opener at h
  simp only [Bool.or_eq_true, Bool.and_eq_true, decide_eq_true_eq, or_assoc,
    and_assoc] at h
  rcases h with ⟨h0, -⟩ | ⟨h0, -⟩ | ⟨h0, -⟩ | ⟨h0, -⟩ | ⟨h0, -⟩ |
    ⟨h0, -⟩ | ⟨h0, -⟩ | ⟨h0, -⟩ | ⟨h0, -⟩ | h0 | h0
  · exact ⟨'(', h0, by simp⟩
  · exact ⟨'#', h0, by simp⟩
  · exact ⟨'<', h0, by simp⟩
  · exact ⟨'<', h0, by simp⟩
  · exact ⟨'<', h0, by simp⟩
  · exact ⟨'<', h0, by simp⟩
  · exact ⟨'<', h0, by simp⟩
  · exact ⟨'<', h0, by simp⟩
  · exact ⟨'<', h0, by simp⟩
  · exact ⟨'[', h0, by simp⟩
  · exact ⟨']', h0, by simp⟩

/-- When the cursor is at a position the code recognises as a construct start
(and the lookahead can enter neither the parameter gate nor the whitespace
branch), the scan declines with no symbol and no committed characters. -/
theorem scan_declines_of_opener (valid : Caps) (l : Lexer) (c : Char)
    (hc : l.lookahead = some c) (hbrace : c ≠ '{') (hws : is_ws c = false)
    (hsp : (at_spip_start l).1 = true) :
    (scan valid l).ok = false ∧ (scan valid l).sym = none ∧
      (l.marked = l.pos → (scan valid l).lexer.marked = l.pos) := by
  have he := eof_false_of_lookahead l c hc
  have hns : ¬ (valid.shorthand = true ∧ l.lookahead = some '{') := by
    rintro ⟨-, h2⟩
    exact hbrace (Option.some.inj (hc.symm.trans h2))
  have hnw : ¬ (valid.ws = true ∧ lookIsWs l = true) := by
    rintro ⟨-, h2⟩
    obtain ⟨c', hc', hw'⟩ := lookIsWs_exists l h2
    cases Option.some.inj (hc.symm.trans hc')
    rw [hws] at hw'
    exact Bool.false_ne_true hw'
  by_cases hcont : valid.content = true
  · rw [scan_content_branch valid l he hns hnw hcont, if_pos hsp]
    exact ⟨rfl, rfl, fun hm => at_spip_start_marked l hm⟩
  · rw [scan_no_content valid l he hns hnw (by simpa using hcont)]
    exact ⟨rfl, rfl, fun hm => hm⟩

/-- Evaluation form of the whitespace branch, for concrete computations. -/
theorem scan_ws_eval (valid : Caps) (l lf : Lexer) (he : l.eof = false)
    (hns : ¬ (valid.shorthand = true ∧ l.lookahead = some '{'))
    (hw : valid.ws = true) (hl : lookIsWs l = true)
    (hrun : wsLoop l.markEnd = lf) :
    scan valid l =
      if followSet lf.lookahead = true then
        ⟨true, some TokenType.SPIP_WS, lf.markEnd⟩
      else
        ⟨false, none, lf⟩ := by
  rw [scan_ws_branch valid l he hns hw hl, hrun]

theorem depthRun_append (bound : Nat) (l₁ l₂ : List Char) (d : Nat) :
    depthRun bound (l₁ ++ l₂) d =
      (depthRun bound l₁ d).bind (depthRun bound l₂) := by
  induction l₁ generalizing d with
  | nil => simp [depthRun]
  | cons c rest ih =>
    by_cases h1 : c = '{'
    · subst h1
      by_cases h2 : d + 1 ≤ bound
      · simp [depthRun, h2, ih]
      · simp [depthRun, h2]
    · by_cases h3 : c = '}'
      · subst h3
        cases d with
        | zero => simp [depthRun, h1]
        | succ d' => simp [depthRun, h1, ih]
      · simp [depthRun, h1, h3, ih]

theorem depthRun_brace_free (bound : Nat) (l : List Char)
    (h : brace_free l = true) (d : Nat) : depthRun bound l d = some d := by
  induction l with
  | nil => simp [depthRun]
  | cons c rest ih =>
    simp [brace_free, List.all_cons] at h
    obtain ⟨⟨hc1, hc2⟩, hrest⟩ := h
    have hrest' : brace_free rest = true ∨ rest = [] := by
      cases rest with
      | nil => exact Or.inr rfl
      | cons x xs =>
        refine Or.inl ?_
        simp only [brace_free, List.isEmpty_cons, Bool.not_false, Bool.true_and,
          List.all_eq_true]
        intro y hy
        have := hrest y hy
        simpa using this
    simp [depthRun, hc1, hc2]
    rcases hrest' with hr | hr
    · exact ih hr
    · subst hr; simp [depthRun]

theorem depthRun_nestedChunk {l : List Char} (h : NestedChunk l) (b d : Nat)
    (hb : d + 1 ≤ b) : depthRun b l d = some d := by
  cases h with
  | run hr => exact depthRun_brace_free b l hr d
  | @group inner hi =>
    show depthRun b ('{' :: (inner ++ ['}'])) d = some d
    have hinner : depthRun b inner (d + 1) = some (d + 1) := by
      rcases hi with hi | hi
      · subst hi; simp [depthRun]
      · exact depthRun_brace_free b inner hi (d + 1)
    simp only [depthRun, if_pos rfl, if_pos hb, depthRun_append, hinner,
      Option.some_bind]
    simp [depthRun]

theorem depthRun_nested {l : List Char} (h : nested_brace_content l) (b d : Nat)
    (hb : d + 1 ≤ b) : depthRun b l d = some d := by
  induction h with
  | single hc => exact depthRun_nestedChunk hc b d hb
  | cons hc _ ih =>
    rw [depthRun_append, depthRun_nestedChunk hc b d hb, Option.some_bind]
    exact ih

theorem depthRun_paramChunk {l : List Char} (h : ParamChunk l) (b d : Nat)
    (hb : d + 2 ≤ b) : depthRun b l d = some d := by
  cases h with
  | run hr => exact depthRun_brace_free b l hr d
  | @group inner hi =>
    show depthRun b ('{' :: (inner ++ ['}'])) d = some d
    have hinner : depthRun b inner (d + 1) = some (d + 1) := by
      rcases hi with hi | hi
      · subst hi; simp [depthRun]
      · exact depthRun_nested hi b (d + 1) (by omega)
    simp only [depthRun, if_pos rfl, if_pos (by omega : d + 1 ≤ b), depthRun_append,
      hinner, Option.some_bind]
    simp [depthRun]

theorem depthRun_param {l : List Char} (h : Chunks ParamChunk l) (b d : Nat)
    (hb : d + 2 ≤ b) : depthRun b l d = some d := by
  induction h with
  | single hc => exact depthRun_paramChunk hc b d hb
  | cons hc _ ih =>
    rw [depthRun_append, depthRun_paramChunk hc b d hb, Option.some_bind]
    exact ih

theorem depthRun_criteria {l : List Char} (h : criteria l) (b : Nat)
    (hb : 3 ≤ b) : depthRun b l 0 = some 0 := by
  obtain ⟨v, hv, rfl⟩ := h
  show depthRun b ('{' :: (v ++ ['}'])) 0 = some 0
  have hinner : depthRun b v 1 = some 1 := depthRun_param hv b 1 (by omega)
  simp only [depthRun, if_pos rfl, if_pos (by omega : 0 + 1 ≤ b), depthRun_append]
  simp only [show (0 : Nat) + 1 = 1 from rfl, hinner, Option.some_bind]
  simp [depthRun]

/-!
Claim theorems.
-/

/-- C1: every call that returns Accept commits at least one character, so the
driving loop that repeatedly invokes the classifier until end-of-stream
terminates; no call accepts with zero consumed characters.  Stated on the
code: whenever scan returns ok, the committed end (final marked) is strictly
beyond the entry position. -/
theorem claim_C1_accept_commits (valid : Caps) (l : Lexer) (hm : l.marked = l.pos)
    (hok : (scan valid l).ok = true) :
    l.pos + 1 ≤ (scan valid l).lexer.marked := by
  by_cases he : l.eof = true
  · rw [scan_eof valid l he] at hok; cases hok
  · have he' : l.eof = false := by simpa using he
    by_cases hsh : valid.shorthand = true ∧ l.lookahead = some '{'
    · rw [scan_shorthand_branch valid l he' hsh.1 hsh.2]
    · by_cases hws : valid.ws = true ∧ lookIsWs l = true
      · rw [scan_ws_branch valid l he' hsh hws.1 hws.2] at hok ⊢
        by_cases hf : followSet (wsLoop l.markEnd).lookahead = true
        · rw [if_pos hf] at hok ⊢
          show l.pos + 1 ≤ (wsLoop l.markEnd).markEnd.marked
          rw [Lexer.markEnd_marked]
          have hstep : wsLoop l.markEnd = wsLoop l.markEnd.advance :=
            wsLoop_step l.markEnd (by
              have h1 : lookIsWs l.markEnd = true := hws.2
              have h2 : l.markEnd.eof = false := he'
              rw [h1, h2]; rfl)
          rw [hstep]
          have := wsLoop_pos_le l.markEnd.advance
          simp [Lexer.advance] at this ⊢
          omega
        · rw [if_neg hf] at hok; cases hok
      · by_cases hcont : valid.content = true
        · rw [scan_content_branch valid l he' hsh hws hcont] at hok ⊢
          by_cases hsp : (at_spip_start l).1 = true
          · rw [if_pos hsp] at hok; cases hok
          · rw [if_neg hsp]
            show l.pos + 1 ≤ (at_spip_start l).2.markEnd.advance.markEnd.marked
            have := at_spip_start_pos_le l
            simp
            omega
        · rw [scan_no_content valid l he' hsh hws (by simpa using hcont)] at hok
          cases hok

/-- C1 witness: a concrete accepting call (content character) commits one
character. -/
theorem claim_C1_witness :
    (⟨['a'], 0, 0⟩ : Lexer).pos + 1 ≤
      (scan ⟨true, true, true⟩ ⟨['a'], 0, 0⟩).lexer.marked :=
  claim_C1_accept_commits ⟨true, true, true⟩ ⟨['a'], 0, 0⟩ rfl (by decide)

/-- C2: at every cursor position whose lookahead matches an enumerated opener
prefix of the spec table (section 4.1), the scan declines — returns false with
no symbol and with the committed end still at the entry position — whatever
the capability set contains. -/
theorem claim_C2_opener_declines (valid : Caps) (l : Lexer) (hm : l.marked = l.pos)
    (h : spec_opener l.input l.pos = true) :
    (scan valid l).ok = false ∧ (scan valid l).sym = none ∧
      (scan valid l).lexer.marked = l.pos := by
  obtain ⟨c, hc0, hc5⟩ := spec_opener_first l.input l.pos h
  have hc : l.lookahead = some c := by rw [lookahead_eq]; exact hc0
  have hsp : (at_spip_start l).1 = true := at_spip_start_of_spec_opener l h
  have hbrace : c ≠ '{' := by rcases hc5 with rfl | rfl | rfl | rfl | rfl <;> decide
  have hws : is_ws c = false := by rcases hc5 with rfl | rfl | rfl | rfl | rfl <;> decide
  obtain ⟨ho, hs, hmk⟩ := scan_declines_of_opener valid l c hc hbrace hws hsp
  exact ⟨ho, hs, hmk hm⟩

/-- C2 witness: with all three capabilities offered, the scan declines at the
abbreviated-tag opener position of the input hash-T-I-T-R-E. -/
theorem claim_C2_witness :
    spec_opener ("#TITRE".toList) 0 = true ∧
      (scan ⟨true, true, true⟩ ⟨"#TITRE".toList, 0, 0⟩).ok = false :=
  ⟨by decide,
    (claim_C2_opener_declines ⟨true, true, true⟩ ⟨"#TITRE".toList, 0, 0⟩ rfl
      (by decide)).1⟩

/-- C4: whenever the whitespace branch is taken and declines, the committed
position afterward equals the one before the call: no symbol and no committed
characters, so the same whitespace can be re-examined by another alternative. -/
theorem claim_C4_rollback (valid : Caps) (l : Lexer) (hm : l.marked = l.pos)
    (hw : valid.ws = true) (hl : lookIsWs l = true)
    (hdecl : (scan valid l).ok = false) :
    (scan valid l).sym = none ∧ (scan valid l).lexer.marked = l.pos ∧
      (scan valid l).lexer.input = l.input := by
  obtain ⟨c, hc, hwc⟩ := lookIsWs_exists l hl
  have he := eof_false_of_lookahead l c hc
  have hns : ¬ (valid.shorthand = true ∧ l.lookahead = some '{') := by
    rintro ⟨-, h2⟩
    cases Option.some.inj (hc.symm.trans h2)
    cases hwc
  rw [scan_ws_branch valid l he hns hw hl] at hdecl ⊢
  by_cases hf : followSet (wsLoop l.markEnd).lookahead = true
  · rw [if_pos hf] at hdecl; cases hdecl
  · rw [if_neg hf]
    refine ⟨rfl, ?_, by simp⟩
    show (wsLoop l.markEnd).marked = l.pos
    rw [wsLoop_marked, Lexer.markEnd_marked]

/-- C4 witness: a concrete declined whitespace call leaves the committed end
at the entry position. -/
theorem claim_C4_witness :
    (scan ⟨true, true, false⟩ ⟨[' ', 'x'], 0, 0⟩).lexer.marked = 0 := by
  have hok : (scan ⟨true, true, false⟩ ⟨[' ', 'x'], 0, 0⟩).ok = false := by
    rw [scan_ws_eval ⟨true, true, false⟩ ⟨[' ', 'x'], 0, 0⟩ ⟨[' ', 'x'], 1, 0⟩
      (by decide) (by simp) rfl (by decide)
      (by rw [wsLoop_step _ (by decide), wsLoop_done _ (by decide)]; rfl)]
    decide
  exact (claim_C4_rollback ⟨true, true, false⟩ ⟨[' ', 'x'], 0, 0⟩ rfl rfl
    (by decide) hok).2.1

theorem wsLoop_pos_gt (l : Lexer) (hl : lookIsWs l = true) (he : l.eof = false) :
    l.pos + 1 ≤ (wsLoop l).pos := by
  rw [wsLoop_step l (by rw [hl, he]; rfl)]
  have := wsLoop_pos_le l.advance
  simpa [Lexer.advance] using this

/-- C3 counterexample: whitespace followed by an abbreviated-tag opener (a
spec-table opener prefix) is NOT committed as structural whitespace by the
code; the whitespace branch declines because the follow-set switch does not
consult the opener table.  The claim as stated says such a call commits. -/
theorem claim_C3_counterexample :
    spec_opener [' ', '#', 'A'] 1 = true ∧
      scan ⟨false, true, false⟩ ⟨[' ', '#', 'A'], 0, 0⟩ =
        ⟨false, none, ⟨[' ', '#', 'A'], 1, 0⟩⟩ := by
  refine ⟨by decide, ?_⟩
  rw [scan_ws_eval ⟨false, true, false⟩ ⟨[' ', '#', 'A'], 0, 0⟩ ⟨[' ', '#', 'A'], 1, 0⟩
    (by decide) (by simp) rfl (by decide)
    (by rw [wsLoop_step _ (by decide), wsLoop_done _ (by decide)]; rfl)]
  decide

/-- C3 amended: with whitespace acceptable and whitespace at the cursor, the
classifier consumes the maximal whitespace run and commits it as structural
whitespace exactly when the character after the run is in the fixed follow
set (parameter-open, filter-separator, close-parenthesis, star, closing
angle, forward-slash); a following construct opener is not a valid follow
condition.  On accept the whole nonempty run is committed; the consumed
characters are all whitespace and the stop character is not. -/
theorem claim_C3_amended (valid : Caps) (l : Lexer) (hw : valid.ws = true)
    (hl : lookIsWs l = true) :
    (scan valid l).ok = followSet (wsLoop l.markEnd).lookahead ∧
    ((scan valid l).ok = true →
      (scan valid l).sym = some TokenType.SPIP_WS ∧
      (scan valid l).lexer.marked = (wsLoop l.markEnd).pos ∧
      l.pos + 1 ≤ (wsLoop l.markEnd).pos) ∧
    (∀ i, l.pos ≤ i → i < (wsLoop l.markEnd).pos → charIsWs l.input i = true) ∧
    charIsWs l.input (wsLoop l.markEnd).pos = false := by
  obtain ⟨c, hc, hwc⟩ := lookIsWs_exists l hl
  have he := eof_false_of_lookahead l c hc
  have hns : ¬ (valid.shorthand = true ∧ l.lookahead = some '{') := by
    rintro ⟨-, h2⟩
    cases Option.some.inj (hc.symm.trans h2)
    cases hwc
  have hrw := scan_ws_branch valid l he hns hw hl
  refine ⟨?_, ?_, ?_, ?_⟩
  · rw [hrw]
    by_cases hf : followSet (wsLoop l.markEnd).lookahead = true
    · rw [if_pos hf, hf]
    · rw [if_neg hf]
      have : followSet (wsLoop l.markEnd).lookahead = false := by simpa using hf
      rw [this]
  · intro hok
    rw [hrw] at hok ⊢
    by_cases hf : followSet (wsLoop l.markEnd).lookahead = true
    · rw [if_pos hf]
      refine ⟨rfl, ?_, ?_⟩
      · show (wsLoop l.markEnd).markEnd.marked = (wsLoop l.markEnd).pos
        rw [Lexer.markEnd_marked]
      · exact wsLoop_pos_gt l.markEnd hl he
    · rw [if_neg hf] at hok; cases hok
  · intro i h1 h2
    have := wsLoop_all_ws l.markEnd i (by simpa using h1) h2
    simpa using this
  · have := wsLoop_stop l.markEnd
    simpa [lookIsWs] using this

/-- C3 amended witness: a concrete whitespace run followed by the
parameter-open delimiter. -/
theorem claim_C3_witness :
    (scan ⟨false, true, false⟩ ⟨[' ', '{'], 0, 0⟩).ok =
      followSet (wsLoop (⟨[' ', '{'], 0, 0⟩ : Lexer).markEnd).lookahead :=
  (claim_C3_amended ⟨false, true, false⟩ ⟨[' ', '{'], 0, 0⟩ rfl (by decide)).1

/-- C5: the claim says a content call commits exactly one character even when
disambiguation peeked ahead.  The code contradicts this (and its own comment
that one character is consumed): after at_spip_start has advanced over a
declined multi-character peek, the content path calls mark_end at the peeked
position, so on the input less-than p greater-than with only content
acceptable the single accepted CONTENT_CHAR token spans TWO characters
(final committed end 2 from entry 0). -/
theorem claim_C5_code_bug_eval :
    scan ⟨true, false, false⟩ ⟨['<', 'p', '>'], 0, 0⟩ =
      ⟨true, some TokenType.CONTENT_CHAR, ⟨['<', 'p', '>'], 2, 2⟩⟩ := by decide

/-- C6 counterexample: on the input less-than B o d y the code treats the
position as an opener (at_spip_start true) and content classification
declines, where the claim says the less-than sign passes as content because
the third character is neither O nor underscore. -/
theorem claim_C6_counterexample :
    (at_spip_start ⟨['<', 'B', 'o', 'd', 'y', '>'], 0, 0⟩).1 = true ∧
      (scan ⟨true, false, false⟩ ⟨['<', 'B', 'o', 'd', 'y', '>'], 0, 0⟩).ok
        = false := by decide

/-- C6 amended: the prefix less-than B is classified as an opener regardless
of the third character, and content classification declines there. -/
theorem claim_C6_amended (valid : Caps) (l : Lexer)
    (h0 : l.input[l.pos]? = some '<') (h1 : l.input[l.pos + 1]? = some 'B') :
    (at_spip_start l).1 = true ∧ (scan valid l).ok = false := by
  have hsp := at_spip_start_lt_B l h0 h1
  have hc : l.lookahead = some '<' := by rw [lookahead_eq]; exact h0
  exact ⟨hsp, (scan_declines_of_opener valid l '<' hc (by decide) (by decide) hsp).1⟩

/-- C6 amended witness. -/
theorem claim_C6_witness :
    (at_spip_start ⟨['<', 'B', 'x'], 0, 0⟩).1 = true ∧
      (scan ⟨true, true, true⟩ ⟨['<', 'B', 'x'], 0, 0⟩).ok = false :=
  claim_C6_amended ⟨true, true, true⟩ ⟨['<', 'B', 'x'], 0, 0⟩ (by decide) (by decide)

/-- C7: a hash followed by an uppercase letter or by an underscore is an
opener, and content classification declines there. -/
theorem claim_C7_hash_openers (valid : Caps) (l : Lexer) (c2 : Char)
    (h0 : l.input[l.pos]? = some '#') (h1 : l.input[l.pos + 1]? = some c2)
    (h2 : (('A' ≤ c2 && c2 ≤ 'Z') || c2 = '_') = true) :
    (at_spip_start l).1 = true ∧ (scan valid l).ok = false := by
  have hsp := at_spip_start_hash l c2 h0 h1 h2
  have hc : l.lookahead = some '#' := by rw [lookahead_eq]; exact h0
  exact ⟨hsp, (scan_declines_of_opener valid l '#' hc (by decide) (by decide) hsp).1⟩

/-- C7 witness: hash-underscore at the cursor is an opener and content
classification declines. -/
theorem claim_C7_witness :
    (at_spip_start ⟨['#', '_', 'b'], 0, 0⟩).1 = true ∧
      (scan ⟨true, false, false⟩ ⟨['#', '_', 'b'], 0, 0⟩).ok = false :=
  claim_C7_hash_openers ⟨true, false, false⟩ ⟨['#', '_', 'b'], 0, 0⟩ '_'
    (by decide) (by decide) (by decide)

/-- C8: when the parameter gate is set and the lookahead is the
parameter-open delimiter, the scan consumes exactly that one character and
emits SHORTHAND_LBRACE; when the gate is unset the same delimiter is
absorbed by content classification as one plain content character. -/
theorem claim_C8_param_gate (valid : Caps) (l : Lexer)
    (hl : l.lookahead = some '{') :
    (valid.shorthand = true →
      scan valid l = ⟨true, some TokenType.SHORTHAND_LBRACE,
        ⟨l.input, l.pos + 1, l.pos + 1⟩⟩) ∧
    (valid.shorthand = false → valid.content = true →
      scan valid l = ⟨true, some TokenType.CONTENT_CHAR,
        ⟨l.input, l.pos + 1, l.pos + 1⟩⟩) := by
  have he := eof_false_of_lookahead l '{' hl
  constructor
  · intro hs
    exact scan_shorthand_branch valid l he hs hl
  · intro hs hcont
    have hns : ¬ (valid.shorthand = true ∧ l.lookahead = some '{') := by
      rintro ⟨h2, -⟩; rw [hs] at h2; cases h2
    have hnw : ¬ (valid.ws = true ∧ lookIsWs l = true) := by
      rintro ⟨-, h2⟩
      obtain ⟨c, hc, hwc⟩ := lookIsWs_exists l h2
      cases Option.some.inj (hl.symm.trans hc)
      cases hwc
    have hsp : at_spip_start l = (false, l) := by
      unfold at_spip_start
      simp [hl]
    rw [scan_content_branch valid l he hns hnw hcont, hsp]
    simp [Lexer.markEnd, Lexer.advance]

/-- C8 witness: the two gate settings on a concrete delimiter. -/
theorem claim_C8_witness :
    scan ⟨true, false, true⟩ ⟨['{', 'x'], 0, 0⟩ =
      ⟨true, some TokenType.SHORTHAND_LBRACE, ⟨['{', 'x'], 1, 1⟩⟩ ∧
    scan ⟨true, false, false⟩ ⟨['{', 'x'], 0, 0⟩ =
      ⟨true, some TokenType.CONTENT_CHAR, ⟨['{', 'x'], 1, 1⟩⟩ :=
  ⟨(claim_C8_param_gate ⟨true, false, true⟩ ⟨['{', 'x'], 0, 0⟩ (by decide)).1 rfl,
    (claim_C8_param_gate ⟨true, false, false⟩ ⟨['{', 'x'], 0, 0⟩ (by decide)).2 rfl rfl⟩

/-- C9: parameter and criteria bodies balance their brace pair to depth
exactly three: the scenario-D value with three levels is in the language of
criteria and param_content, while a value with a fourth-level pair inside a
third-level body is in neither (the raw-text token excludes the delimiters,
so such input cannot balance and falls back to plain content — the scanner
indeed lets the brace pass as a content position rather than an opener). -/
theorem claim_C9_nesting_depth :
    criteria scenarioDCriteria ∧
    param_content scenarioDBody ∧
    ¬ criteria fourLevelCriteria ∧
    ¬ param_content fourLevelBody ∧
    (at_spip_start ⟨fourLevelCriteria, 0, 0⟩).1 = false := by
  have hdeep : NestedChunk ('{' :: ['_', 'M', 'A', 'X'] ++ ['}']) :=
    NestedChunk.group
      (Or.inr (show brace_free ['_', 'M', 'A', 'X'] = true by decide))
  have hnested : nested_brace_content
      (['n', 'o', 'm', 'b', 'r', 'e', ',', '#', 'C', 'O', 'N', 'S', 'T'] ++
        ('{' :: ['_', 'M', 'A', 'X'] ++ ['}'])) :=
    Chunks.cons (NestedChunk.run (by decide)) (Chunks.single hdeep)
  have hpg : ParamChunk
      ('{' :: (['n', 'o', 'm', 'b', 'r', 'e', ',', '#', 'C', 'O', 'N', 'S', 'T'] ++
        ('{' :: ['_', 'M', 'A', 'X'] ++ ['}'])) ++ ['}']) :=
    ParamChunk.group (Or.inr hnested)
  have hpc : param_content
      (['#', 'E', 'N', 'V'] ++
        ('{' :: (['n', 'o', 'm', 'b', 'r', 'e', ',', '#', 'C', 'O', 'N', 'S', 'T'] ++
          ('{' :: ['_', 'M', 'A', 'X'] ++ ['}'])) ++ ['}'])) :=
    Chunks.cons (ParamChunk.run (by decide)) (Chunks.single hpg)
  have heq : scenarioDBody =
      ['#', 'E', 'N', 'V'] ++
        ('{' :: (['n', 'o', 'm', 'b', 'r', 'e', ',', '#', 'C', 'O', 'N', 'S', 'T'] ++
          ('{' :: ['_', 'M', 'A', 'X'] ++ ['}'])) ++ ['}']) := by
    decide
  have hpc' : param_content scenarioDBody := by
    rw [heq]; exact hpc
  refine ⟨⟨_, hpc', by decide⟩, hpc', ?_, ?_, by decide⟩
  · intro hcrit
    have hd := depthRun_criteria hcrit 3 (by omega)
    exact absurd hd (by decide)
  · intro hp
    have hd := depthRun_param hp 2 0 (by omega)
    exact absurd hd (by decide)

/-- C10: when the whitespace branch is taken and the follow-set test fails,
the call declines outright — it does not fall through to content
classification in the same call, whatever the rest of the capability set
(in particular even when content is acceptable). -/
theorem claim_C10_no_fallthrough (valid : Caps) (l : Lexer)
    (hw : valid.ws = true) (hl : lookIsWs l = true)
    (hf : followSet (wsLoop l.markEnd).lookahead = false) :
    scan valid l = ⟨false, none, wsLoop l.markEnd⟩ := by
  obtain ⟨c, hc, hwc⟩ := lookIsWs_exists l hl
  have he := eof_false_of_lookahead l c hc
  have hns : ¬ (valid.shorthand = true ∧ l.lookahead = some '{') := by
    rintro ⟨-, h2⟩
    cases Option.some.inj (hc.symm.trans h2)
    cases hwc
  rw [scan_ws_branch valid l he hns hw hl, if_neg (by simp [hf])]

/-- C10 witness: with content acceptable, whitespace before an ordinary
letter still declines rather than being classified as content. -/
theorem claim_C10_witness :
    scan ⟨true, true, false⟩ ⟨[' ', 'y'], 0, 0⟩ =
      ⟨false, none, wsLoop (⟨[' ', 'y'], 0, 0⟩ : Lexer).markEnd⟩ :=
  claim_C10_no_fallthrough ⟨true, true, false⟩ ⟨[' ', 'y'], 0, 0⟩ rfl (by decide)
    (by rw [wsLoop_step _ (by decide), wsLoop_done _ (by decide)]; decide)

end Spip
